import Mathlib

/-!
Verification of the Engrama memory-storage backend core: the dual-backend
consistency layer (Record Store + Search Index), the partition-naming
function, and the distributed sliding-window rate governor.

The definitions below are shallow embeddings of the Python sources:
  - src/api/rate_limiter.py        (RateLimiterMiddleware.dispatch)
  - src/engrama/store/vector_store.py  (VectorStore: collection naming,
    add / search / list / get_by_session / update / delete)
  - src/cortex/store/vector_store.py   (legacy VectorStore: naming, delete,
    search, increment_hit_count)
  - src/cortex/memory_manager.py   (MemoryManager.search)
Machine integers are modelled as Nat/Int with explicit reduction mod 2^32
where the source (SHA-256) wraps; Python floats on the score path are
modelled over the rationals; fallible backend calls take an explicit
failure-injection flag and return the degraded result the except-handler
produces.
-/

namespace EngramaSpec

/-! ## Rate governor (src/api/rate_limiter.py)

The Redis sorted set behind one client's key is modelled as a list of
integer timestamps: each member of the sorted set is the string of a
timestamp with that timestamp as its score, so the member set is decided by
the timestamp value alone. ZADD of an existing member only refreshes its
score, hence the dedup in zaddEntry.
-/

/-- The sliding window length in seconds: window_start = now - 60.0. -/
def windowSeconds : Int := 60

/-- ZREMRANGEBYSCORE key -inf window_start: removes every entry with score
less than or equal to window_start (the Redis range is inclusive). -/
def trimWindow (entries : List Int) (windowStart : Int) : List Int :=
  entries.filter fun t => decide (windowStart < t)

/-- ZADD key (str(now): now): inserts the member unless already present
(an existing member only has its identical score refreshed). -/
def zaddEntry (entries : List Int) (now : Int) : List Int :=
  if now ∈ entries then entries else entries ++ [now]

/-- The counter backend as seen by one dispatch call: not configured
(self.redis is None), reachable, or raising on the atomic batch. -/
inductive Backend
  | absent
  | ok
  | failing
deriving DecidableEq

/-- Outcome of one dispatch: the state of this client's sorted set, whether
the request was admitted (True) or rejected with 429 (False), and whether
the counter backend was contacted at all. -/
structure DispatchResult where
  entries : List Int
  admitted : Bool
  contacted : Bool
deriving DecidableEq

/-- RateLimiterMiddleware.dispatch for one client key.  Mirrors the source:
a non-positive ceiling or an unconfigured backend short-circuits to
call_next without touching Redis; a raising batch is caught, logged and the
request passed through (fail-open); otherwise the atomic pipeline trims the
window, records now, counts, refreshes expiry, and rejects iff the
post-insert count exceeds the ceiling. -/
def dispatch (maxRpm : Int) (backend : Backend) (entries : List Int) (now : Int) :
    DispatchResult :=
  if maxRpm ≤ 0 ∨ backend = Backend.absent then
    { entries := entries, admitted := true, contacted := false }
  else if backend = Backend.failing then
    { entries := entries, admitted := true, contacted := true }
  else
    let afterAdd := zaddEntry (trimWindow entries (now - windowSeconds)) now
    { entries := afterAdd
      admitted := !decide ((afterAdd.length : Int) > maxRpm)
      contacted := true }

/-- Sequential requests from one client: thread the sorted-set state through
dispatch once per request time, collecting the admission decisions. -/
def runRequests (maxRpm : Int) (backend : Backend) (entries : List Int) :
    List Int → List Int × List Bool
  | [] => (entries, [])
  | now :: rest =>
    let r := dispatch maxRpm backend entries now
    let r2 := runRequests maxRpm backend r.entries rest
    (r2.1, r.admitted :: r2.2)

/-! ## SHA-256 (hashlib.sha256(...).hexdigest() used by collection naming)

A byte-accurate SHA-256 over Nat arithmetic: 32-bit words are Nats reduced
mod 2^32 at every wrapping operation, bytes are Nats below 256, and the
hex digest is built four bits at a time so each word contributes exactly
eight characters.  Validated against the FIPS 180 test vectors during
development (empty string, abc, the 448-bit fox sentence, multi-block
inputs).
-/

/-- Modulus of a 32-bit word, 2 to the 32. -/
def w32 : Nat := 4294967296

/-- Right rotation of a 32-bit word by n bits. -/
def rotr32 (x n : Nat) : Nat :=
  ((x >>> n) ||| (x <<< (32 - n))) % w32

/-- The 64 SHA-256 round constants of FIPS 180, written in decimal. -/
def shaK : List Nat :=
  [1116352408, 1899447441, 3049323471, 3921009573, 961987163,
   1508970993, 2453635748, 2870763221, 3624381080, 310598401,
   607225278, 1426881987, 1925078388, 2162078206, 2614888103,
   3248222580, 3835390401, 4022224774, 264347078, 604807628,
   770255983, 1249150122, 1555081692, 1996064986, 2554220882,
   2821834349, 2952996808, 3210313671, 3336571891, 3584528711,
   113926993, 338241895, 666307205, 773529912, 1294757372,
   1396182291, 1695183700, 1986661051, 2177026350, 2456956037,
   2730485921, 2820302411, 3259730800, 3345764771, 3516065817,
   3600352804, 4094571909, 275423344, 430227734, 506948616,
   659060556, 883997877, 958139571, 1322822218, 1537002063,
   1747873779, 1955562222, 2024104815, 2227730452, 2361852424,
   2428436474, 2756734187, 3204031479, 3329325298]

/-- The eight initial SHA-256 state words of FIPS 180, written in decimal. -/
def shaInit : List Nat :=
  [1779033703, 3144134277, 1013904242, 2773480762,
   1359893119, 2600822924, 528734635, 1541459225]

/-- Big-endian byte decomposition of n into len bytes. -/
def beBytes (n : Nat) (len : Nat) : List Nat :=
  (List.range len).map fun i => (n >>> (8 * (len - 1 - i))) % 256

/-- SHA-256 padding: a 0x80 byte, zeros to 56 mod 64, then the bit length
as eight big-endian bytes. -/
def sha256Pad (msg : List Nat) : List Nat :=
  let L := msg.length
  let r := (L + 1) % 64
  let z := if r ≤ 56 then 56 - r else 120 - r
  msg ++ [0x80] ++ List.replicate z 0 ++ beBytes (8 * L) 8

/-- Split a byte list into successive 64-byte blocks. -/
def chunks64 (l : List Nat) : List (List Nat) :=
  if h : l = [] then []
  else l.take 64 :: chunks64 (l.drop 64)
termination_by l.length
decreasing_by
  simp only [List.length_drop]
  have hlen : l.length ≠ 0 := fun h0 => h (List.eq_nil_of_length_eq_zero h0)
  omega

/-- Big-endian 32-bit word from the first four bytes of a list. -/
def bytesToWord (bs : List Nat) : Nat :=
  (bs.getD 0 0) <<< 24 + (bs.getD 1 0) <<< 16 + (bs.getD 2 0) <<< 8 + bs.getD 3 0

/-- The sixteen message-schedule words of one 64-byte block. -/
def toWords (block : List Nat) : List Nat :=
  (List.range 16).map fun i => bytesToWord (block.drop (4 * i))

/-- One message-schedule extension step: appends word i from words i-16,
i-15, i-7 and i-2, where i is the current schedule length. -/
def extendStep (w : List Nat) : List Nat :=
  let i := w.length
  let w15 := w.getD (i - 15) 0
  let w2 := w.getD (i - 2) 0
  let w16 := w.getD (i - 16) 0
  let w7 := w.getD (i - 7) 0
  let s0 := (rotr32 w15 7) ^^^ (rotr32 w15 18) ^^^ (w15 >>> 3)
  let s1 := (rotr32 w2 17) ^^^ (rotr32 w2 19) ^^^ (w2 >>> 10)
  w ++ [(w16 + s0 + w7 + s1) % w32]

/-- One SHA-256 compression round on the eight-word state. -/
def compressStep (st : List Nat) (kw : Nat × Nat) : List Nat :=
  let a := st.getD 0 0
  let b := st.getD 1 0
  let c := st.getD 2 0
  let d := st.getD 3 0
  let e := st.getD 4 0
  let f := st.getD 5 0
  let g := st.getD 6 0
  let h := st.getD 7 0
  let s1 := (rotr32 e 6) ^^^ (rotr32 e 11) ^^^ (rotr32 e 25)
  let ch := (e &&& f) ^^^ ((e ^^^ (w32 - 1)) &&& g)
  let temp1 := (h + s1 + ch + kw.1 + kw.2) % w32
  let s0 := (rotr32 a 2) ^^^ (rotr32 a 13) ^^^ (rotr32 a 22)
  let maj := (a &&& b) ^^^ (a &&& c) ^^^ (b &&& c)
  let temp2 := (s0 + maj) % w32
  [(temp1 + temp2) % w32, a, b, c, (d + temp1) % w32, e, f, g]

/-- Process one 64-byte block: extend the schedule to 64 words, run the 64
compression rounds, and add the result into the chaining state. -/
def processBlock (h : List Nat) (block : List Nat) : List Nat :=
  let w := extendStep^[48] (toWords block)
  let st := (shaK.zip w).foldl compressStep h
  (h.zip st).map fun p => (p.1 + p.2) % w32

/-- The eight final SHA-256 state words of a byte message. -/
def sha256Words (msg : List Nat) : List Nat :=
  (chunks64 (sha256Pad msg)).foldl processBlock shaInit

/-- Lower-case hex digit for a value below 16. -/
def hexChar (n : Nat) : Char :=
  if n < 10 then Char.ofNat (48 + n) else Char.ofNat (87 + n)

/-- Eight hex characters of one 32-bit word, most significant nibble first. -/
def wordHex (w : Nat) : List Char :=
  (List.range 8).map fun i => hexChar ((w >>> (4 * (7 - i))) % 16)

/-- UTF-8 encoding of one scalar value, as Python str.encode produces. -/
def utf8Encode (c : Char) : List Nat :=
  let n := c.toNat
  if n < 0x80 then [n]
  else if n < 0x800 then
    [0xc0 ||| (n >>> 6), 0x80 ||| (n &&& 0x3f)]
  else if n < 0x10000 then
    [0xe0 ||| (n >>> 12), 0x80 ||| ((n >>> 6) &&& 0x3f), 0x80 ||| (n &&& 0x3f)]
  else
    [0xf0 ||| (n >>> 18), 0x80 ||| ((n >>> 12) &&& 0x3f),
     0x80 ||| ((n >>> 6) &&& 0x3f), 0x80 ||| (n &&& 0x3f)]

/-- UTF-8 bytes of a string. -/
def strBytes (s : String) : List Nat :=
  (s.data.map utf8Encode).flatten

/-- Full hex digest of the SHA-256 of a string, 64 lower-case hex chars:
hashlib.sha256(s.encode()).hexdigest(). -/
def sha256Hex (s : String) : String :=
  ⟨((sha256Words (strBytes s)).map wordHex).flatten⟩

/-! ## Partition (collection) naming

engrama/store/vector_store.py VectorStore._collection_name and the legacy
cortex/store/vector_store.py VectorStore._collection_name.  Python string
slicing and len act on code points, exactly List.take and List.length on
the char list, so truncation is modelled through strTake.
-/

/-- Python s[:n] on a str: the first n code points. -/
def strTake (s : String) (n : Nat) : String :=
  ⟨s.data.take n⟩

/-- Membership of a char in the regex class A-Za-z0-9_ used by the engrama
sanitizer re.sub. -/
def isAllowedChar (c : Char) : Bool :=
  ('a' ≤ c && c ≤ 'z') || ('A' ≤ c && c ≤ 'Z') || ('0' ≤ c && c ≤ '9') || c == '_'

/-- The engrama sanitize step: every character outside A-Za-z0-9_ becomes
an underscore (re.sub applied per character). -/
def sanitize (s : String) : String :=
  ⟨s.data.map fun c => if isAllowedChar c then c else '_'⟩

/-- VectorStore._collection_name (engrama): sanitized tenant id, double
underscore, sanitized project id; when longer than 63 chars, the first 54
chars, an underscore, and the first 8 hex chars of the SHA-256 of the full
untruncated name. -/
def collectionName (tenantId projectId : String) : String :=
  let name := sanitize tenantId ++ "__" ++ sanitize projectId
  if name.length > 63 then
    strTake name 54 ++ "_" ++ strTake (sha256Hex name) 8
  else name

/-- The cortex sanitize step: s.replace of a hyphen by an underscore, then
s.replace of an at-sign by the four chars _at_.  Both patterns are single
characters (and neither replacement reintroduces a pattern character), so
the two sequential substring replacements equal this one pass over the
code points. -/
def cortexSanitize (s : String) : String :=
  ⟨((s.data.map fun c => if c == '-' then '_' else c).map fun c =>
      if c == '@' then ['_', 'a', 't', '_'] else [c]).flatten⟩

/-- VectorStore._collection_name (cortex): three sanitized ids joined with
double underscores, truncated to 63 chars with no hash suffix. -/
def cortexCollectionName (tenantId projectId userId : String) : String :=
  let name :=
    cortexSanitize tenantId ++ "__" ++ cortexSanitize projectId ++ "__" ++ cortexSanitize userId
  if name.length > 63 then strTake name 63 else name

/-! ## Data model

MemoryFragment modelled from the spec (section 3): the engrama models
module itself ships outside the excerpted sources, so the fragment record
follows the spec field list.  Importance is a Python float in the unit
interval, modelled over the rationals; timestamps are their ISO-8601
strings (Python sorts them lexicographically on the read paths).
-/

/-- Classification of a fragment: factual, preference, episodic, session. -/
inductive MemoryType
  | factual
  | preference
  | episodic
  | session
deriving DecidableEq

/-- Conversational role of a session fragment. -/
inductive Role
  | user
  | assistant
  | system
deriving DecidableEq

/-- Modelled from the spec: a MemoryFragment row as the Record Store holds
it (identity, scope triple, content, classification, conversational
fields, annotations, derived counters and timestamps). -/
structure MemoryFragment where
  id : String
  tenant_id : String
  project_id : String
  user_id : String
  content : String
  memory_type : MemoryType
  role : Option Role := none
  session_id : Option String := none
  tags : List String := []
  importance : Rat := 0
  metadata : Option (List (String × String)) := none
  hit_count : Nat := 0
  created_at : String := ""
  updated_at : String := ""
deriving DecidableEq

/-- First value bound to a key in an association list. -/
def assocFind {α : Type} (l : List (String × α)) (k : String) : Option α :=
  (l.find? fun e => e.1 == k).map Prod.snd

/-! ## Record Store (the authoritative relational store)

The engrama meta-store implementations (SQLite / Postgres) live outside the
excerpted sources; the operations below are modelled from the spec's Record
Store interface (section 6): atomic single-row writes keyed by fragment id
with an explicit not-found signal distinct from error.  The store is an
association list from fragment id to row.
-/

/-- A Record Store: fragment rows keyed by fragment id. -/
abbrev RecordStore := List (String × MemoryFragment)

/-- Modelled from the spec: getFragment(id), the explicit not-found signal
being the none. -/
def lookupFragment (rs : RecordStore) (id : String) : Option MemoryFragment :=
  assocFind rs id

/-- Modelled from the spec: createFragment — inserts the full fragment row. -/
def addMemoryFragment (rs : RecordStore) (f : MemoryFragment) : RecordStore :=
  (f.id, f) :: rs

/-- Modelled from the spec: getFragments(ids) returns a partial map — only
the ids that resolve produce rows. -/
def getMemoryFragments (rs : RecordStore) (ids : List String) : List MemoryFragment :=
  ids.filterMap (lookupFragment rs)

/-- The updatable field set of VectorStore.update: only the fields the
caller supplied are present. -/
structure FragmentUpdates where
  content : Option String := none
  tags : Option (List String) := none
  importance : Option Rat := none
  metadata : Option (List (String × String)) := none
deriving DecidableEq

/-- Application of a supplied field set to a row: absent fields keep their
stored value. -/
def applyUpdates (f : MemoryFragment) (u : FragmentUpdates) : MemoryFragment :=
  { f with
    content := u.content.getD f.content
    tags := u.tags.getD f.tags
    importance := u.importance.getD f.importance
    metadata := match u.metadata with | none => f.metadata | some m => some m }

/-- Modelled from the spec: updateFragment(id, fieldset) — an atomic
single-row write applying exactly the supplied fields, returning false iff
the row is absent. -/
def updateMemoryFragment (rs : RecordStore) (id : String) (u : FragmentUpdates) :
    RecordStore × Bool :=
  match lookupFragment rs id with
  | none => (rs, false)
  | some f => (rs.map fun e => if e.1 == id then (e.1, applyUpdates f u) else e, true)

/-- Modelled from the spec: deleteFragment(id) -> bool — removes the row,
reporting whether it existed. -/
def deleteMemoryFragment (rs : RecordStore) (id : String) : RecordStore × Bool :=
  (rs.filter fun e => !(e.1 == id), (lookupFragment rs id).isSome)

/-! ## Search Index state (ChromaDB)

Collections keyed by name; each collection maps a fragment id to the stored
document text and the minimal metadata projection that
VectorStore._fragment_to_metadata writes.
-/

/-- The minimal metadata projection the engrama store duplicates into the
index: identity, scope keys, classification, creation time, optional
session id (vector_store.py _fragment_to_metadata). -/
structure ChromaMeta where
  fragment_id : String
  tenant_id : String
  project_id : String
  user_id : String
  memory_type : MemoryType
  created_at : String
  session_id : Option String := none
deriving DecidableEq

/-- VectorStore._fragment_to_metadata. -/
def fragmentToMetadata (f : MemoryFragment) : ChromaMeta :=
  { fragment_id := f.id
    tenant_id := f.tenant_id
    project_id := f.project_id
    user_id := f.user_id
    memory_type := f.memory_type
    created_at := f.created_at
    session_id := f.session_id }

/-- One stored index entry: document text plus minimal metadata. -/
structure ChromaEntry where
  document : String
  meta : ChromaMeta
deriving DecidableEq

/-- One collection: entries keyed by fragment id. -/
abbrev Collection := List (String × ChromaEntry)

/-- Index state: collections keyed by collection name. -/
abbrev ChromaDb := List (String × Collection)

/-- Contents of a named collection, empty when absent. -/
def getCollection (db : ChromaDb) (name : String) : Collection :=
  (assocFind db name).getD []

/-- Client.get_or_create_collection: appends an empty collection when the
name is new, otherwise leaves the state alone. -/
def ensureCollection (db : ChromaDb) (name : String) : ChromaDb :=
  if (assocFind db name).isSome then db else db ++ [(name, [])]

/-- Replacement of the contents of a (created-if-missing) collection. -/
def setCollection (db : ChromaDb) (name : String) (c : Collection) : ChromaDb :=
  (ensureCollection db name).map fun e => if e.1 == name then (e.1, c) else e

/-- State of the consistency layer: the authoritative Record Store and the
derived Search Index. -/
structure EngramaState where
  meta : RecordStore
  chroma : ChromaDb
deriving DecidableEq

/-- Trace of backend calls an operation issues, in order: which store was
touched, the partition name for index calls, the fragment id. -/
inductive StoreOp
  | recordAdd (id : String)
  | recordUpdate (id : String)
  | recordDelete (id : String)
  | recordGet (id : String)
  | indexAdd (name id : String)
  | indexGet (name id : String)
  | indexUpdate (name id : String)
  | indexDelete (name id : String)
deriving DecidableEq

/-- VectorStore.add: writes the Record Store first, then inserts the
document and minimal projection into the per-project collection.  The
indexFails flag injects a raising collection.add; the exception propagates
to the caller (Except.error) and the Record Store commit stands. -/
def VectorStore.add (st : EngramaState) (indexFails : Bool) (f : MemoryFragment) :
    EngramaState × List StoreOp × Except Unit Unit :=
  let meta1 := addMemoryFragment st.meta f
  let name := collectionName f.tenant_id f.project_id
  let db1 := ensureCollection st.chroma name
  if indexFails then
    ({ meta := meta1, chroma := db1 },
     [StoreOp.recordAdd f.id, StoreOp.indexAdd name f.id], Except.error ())
  else
    let coll := getCollection db1 name
    let coll2 := coll ++ [(f.id, { document := f.content, meta := fragmentToMetadata f })]
    ({ meta := meta1, chroma := setCollection db1 name coll2 },
     [StoreOp.recordAdd f.id, StoreOp.indexAdd name f.id], Except.ok ())

/-! ## Read paths: candidate-then-resolve -/

/-- VectorStore._metadata_to_base_dict: fragment id from the index
metadata, the index's document text, and the optional score. -/
structure BaseItem where
  id : String
  content : String
  score : Option Rat := none
deriving DecidableEq

/-- VectorStore._metadata_to_base_dict. -/
def metadataToBaseDict (meta : ChromaMeta) (content : String) (score : Option Rat) :
    BaseItem :=
  { id := meta.fragment_id, content := content, score := score }

/-- A fully resolved result row: the Record Store row with the index's
content copy substituted, plus the attached score when requested. -/
structure EnrichedItem where
  fragment : MemoryFragment
  score : Option Rat
deriving DecidableEq

/-- VectorStore._enrich_with_meta_store: one batch lookup of the candidate
ids against the Record Store (the Python builds a dict keyed by row id from
get_memory_fragments, which maps each candidate id to exactly its Record
Store row); a candidate whose id is not in the map is skipped, a resolved
one keeps the index's content and, when requested, its score. -/
def enrichWithMetaStore (rs : RecordStore) (items : List BaseItem) (withScore : Bool) :
    List EnrichedItem :=
  items.filterMap fun item =>
    match lookupFragment rs item.id with
    | none => none
    | some m =>
      some { fragment := { m with content := item.content }
             score := if withScore then item.score else none }

/-- One candidate returned by collection.query: id, document, metadata and
distance.  The similarity ranking itself happens inside the ChromaDB
backend, so the candidate list is an input of the model. -/
structure QueryHit where
  id : String
  document : String
  meta : ChromaMeta
  distance : Rat
deriving DecidableEq

/-- Distance-to-score conversion on the search path: 1.0 / (1.0 + distance). -/
def simScore (distance : Rat) : Rat := 1 / (1 + distance)

/-- VectorStore.search, from the point the index has answered: each hit
becomes a base item scored 1 / (1 + distance), then the batch resolve
against the Record Store drops unresolved ids. -/
def VectorStore.search (st : EngramaState) (hits : List QueryHit) : List EnrichedItem :=
  let items := hits.map fun h => metadataToBaseDict h.meta h.document (some (simScore h.distance))
  enrichWithMetaStore st.meta items true

/-- One row returned by collection.get on the exact-match read paths. -/
structure GetRow where
  id : String
  document : String
  meta : ChromaMeta
deriving DecidableEq

/-- VectorStore.get_by_session, from the point the index has answered:
resolve against the Record Store, then stable-sort ascending by created_at. -/
def VectorStore.getBySession (st : EngramaState) (rows : List GetRow) : List EnrichedItem :=
  let items := rows.map fun r => metadataToBaseDict r.meta r.document none
  let enriched := enrichWithMetaStore st.meta items false
  enriched.mergeSort fun a b => a.fragment.created_at ≤ b.fragment.created_at

/-- VectorStore.list_memories, from the point the index has answered:
resolve against the Record Store, then stable-sort descending by
created_at. -/
def VectorStore.listMemories (st : EngramaState) (rows : List GetRow) : List EnrichedItem :=
  let items := rows.map fun r => metadataToBaseDict r.meta r.document none
  let enriched := enrichWithMetaStore st.meta items false
  enriched.mergeSort fun a b => b.fragment.created_at ≤ a.fragment.created_at

/-! ## Write paths: update and delete -/

/-- VectorStore.update: builds the supplied field set, updates the Record
Store unconditionally first, then reads the caller-named collection and
checks the projection's user_id against the caller; on a match it rewrites
the index's content copy only when content was supplied and returns the
re-read Record Store row. -/
def VectorStore.update (st : EngramaState) (tenantId projectId userId fragmentId : String)
    (content : Option String) (tags : Option (List String)) (importance : Option Rat)
    (metadata : Option (List (String × String))) :
    EngramaState × List StoreOp × Option MemoryFragment :=
  let updates : FragmentUpdates :=
    { content := content, tags := tags, importance := importance, metadata := metadata }
  let r := updateMemoryFragment st.meta fragmentId updates
  if r.2 = false then
    ({ st with meta := r.1 }, [StoreOp.recordUpdate fragmentId], none)
  else
    let name := collectionName tenantId projectId
    let db1 := ensureCollection st.chroma name
    let coll := getCollection db1 name
    match assocFind coll fragmentId with
    | none =>
      ({ meta := r.1, chroma := db1 },
       [StoreOp.recordUpdate fragmentId, StoreOp.indexGet name fragmentId], none)
    | some entry =>
      if entry.meta.user_id ≠ userId then
        ({ meta := r.1, chroma := db1 },
         [StoreOp.recordUpdate fragmentId, StoreOp.indexGet name fragmentId], none)
      else
        let db2 :=
          if content.isSome then
            setCollection db1 name
              (coll.map fun e =>
                if e.1 == fragmentId then
                  (e.1, { e.2 with document := content.getD e.2.document })
                else e)
          else db1
        ({ meta := r.1, chroma := db2 },
         [StoreOp.recordUpdate fragmentId, StoreOp.indexGet name fragmentId]
           ++ (if content.isSome then [StoreOp.indexUpdate name fragmentId] else [])
           ++ [StoreOp.recordGet fragmentId],
         lookupFragment r.1 fragmentId)

/-- VectorStore.delete: deletes the Record Store row first; a missing row
returns false with no index call.  Otherwise the id is removed from the
caller-named collection — removal of an id the collection does not hold is
a silent no-op for ChromaDB, so only a raising backend call (indexFails)
yields false on that side. -/
def VectorStore.delete (st : EngramaState) (indexFails : Bool)
    (tenantId projectId userId fragmentId : String) :
    EngramaState × List StoreOp × Bool :=
  let r := deleteMemoryFragment st.meta fragmentId
  if r.2 = false then
    ({ st with meta := r.1 }, [StoreOp.recordDelete fragmentId], false)
  else
    let name := collectionName tenantId projectId
    let db1 := ensureCollection st.chroma name
    if indexFails then
      ({ meta := r.1, chroma := db1 },
       [StoreOp.recordDelete fragmentId, StoreOp.indexDelete name fragmentId], false)
    else
      let coll := getCollection db1 name
      ({ meta := r.1, chroma := setCollection db1 name (coll.filter fun e => !(e.1 == fragmentId)) },
       [StoreOp.recordDelete fragmentId, StoreOp.indexDelete name fragmentId], true)

/-! ## Legacy cortex store (src/cortex/store/vector_store.py)

The cortex generation keeps everything in ChromaDB: one collection per
(tenant, project, user), full fragment metadata duplicated into the index,
and no Record Store on the fragment paths.
-/

/-- The full metadata record the cortex store writes into ChromaDB
(_fragment_to_metadata): scope keys, classification, counters, annotations
and timestamps. -/
structure CortexMeta where
  fragment_id : String
  tenant_id : String
  project_id : String
  user_id : String
  memory_type : MemoryType
  hit_count : Nat := 0
  importance : Rat := 0
  created_at : String := ""
  updated_at : String := ""
  role : Option Role := none
  session_id : Option String := none
  tags : List String := []
  extra_metadata : Option (List (String × String)) := none
deriving DecidableEq

/-- One cortex index entry: document text plus full metadata. -/
structure CortexEntry where
  document : String
  meta : CortexMeta
deriving DecidableEq

/-- Cortex index state: per-(tenant, project, user) collections keyed by
name, entries keyed by fragment id. -/
abbrev CortexDb := List (String × List (String × CortexEntry))

/-- Contents of a named cortex collection, empty when absent. -/
def cortexGetCollection (db : CortexDb) (name : String) : List (String × CortexEntry) :=
  (assocFind db name).getD []

/-- Cortex get_or_create_collection. -/
def cortexEnsureCollection (db : CortexDb) (name : String) : CortexDb :=
  if (assocFind db name).isSome then db else db ++ [(name, [])]

/-- Replacement of the contents of a (created-if-missing) cortex collection. -/
def cortexSetCollection (db : CortexDb) (name : String) (c : List (String × CortexEntry)) :
    CortexDb :=
  (cortexEnsureCollection db name).map fun e => if e.1 == name then (e.1, c) else e

/-- Cortex VectorStore.delete: resolves the caller's collection and removes
the id from it inside a try block — ChromaDB's delete of a missing id does
not raise, so the call returns true whether or not the fragment ever
existed; only a raising backend call (indexFails) returns false.  No
Record Store is involved. -/
def CortexStore.delete (db : CortexDb) (indexFails : Bool)
    (tenantId projectId userId fragmentId : String) : CortexDb × Bool :=
  let name := cortexCollectionName tenantId projectId userId
  let db1 := cortexEnsureCollection db name
  if indexFails then (db1, false)
  else
    (cortexSetCollection db1 name
      ((cortexGetCollection db1 name).filter fun e => !(e.1 == fragmentId)), true)

/-- One candidate returned by a cortex collection.query. -/
structure CortexHit where
  id : String
  document : String
  meta : CortexMeta
  distance : Rat
deriving DecidableEq

/-- The dict cortex _metadata_to_dict builds for one result row. -/
structure CortexDict where
  id : String
  tenant_id : String
  project_id : String
  user_id : String
  content : String
  memory_type : MemoryType
  role : Option Role
  session_id : Option String
  tags : List String
  hit_count : Nat
  importance : Rat
  created_at : String
  updated_at : String
  metadata : Option (List (String × String))
  score : Option Rat
deriving DecidableEq

/-- Cortex VectorStore._metadata_to_dict. -/
def cortexMetadataToDict (meta : CortexMeta) (content : String) (score : Option Rat) :
    CortexDict :=
  { id := meta.fragment_id
    tenant_id := meta.tenant_id
    project_id := meta.project_id
    user_id := meta.user_id
    content := content
    memory_type := meta.memory_type
    role := meta.role
    session_id := meta.session_id
    tags := meta.tags
    hit_count := meta.hit_count
    importance := meta.importance
    created_at := meta.created_at
    updated_at := meta.updated_at
    metadata := meta.extra_metadata
    score := score }

/-- Cortex VectorStore.search from the point the index has answered: every
hit becomes a result dict scored 1 / (1 + distance); nothing is resolved
against any other store. -/
def CortexStore.searchResults (hits : List CortexHit) : List CortexDict :=
  hits.map fun h => cortexMetadataToDict h.meta h.document (some (simScore h.distance))

/-- Cortex VectorStore.increment_hit_count: read-modify-write of the
hit_count field inside the caller's collection; a missing id is a no-op. -/
def CortexStore.incrementHitCount (db : CortexDb) (tenantId projectId userId fragmentId : String) :
    CortexDb :=
  let name := cortexCollectionName tenantId projectId userId
  let db1 := cortexEnsureCollection db name
  let coll := cortexGetCollection db1 name
  match assocFind coll fragmentId with
  | none => db1
  | some _ =>
    cortexSetCollection db1 name
      (coll.map fun e =>
        if e.1 == fragmentId then
          (e.1, { e.2 with meta := { e.2.meta with hit_count := e.2.meta.hit_count + 1 } })
        else e)

/-- MemoryManager.search (cortex/memory_manager.py): obtains the result
list from the vector store, then per result calls increment_hit_count
inside try/except pass — the incrementFails predicate marks the calls whose
backend raises; a raising call leaves the state of that step unchanged and
the loop continues.  The result list is returned afterwards. -/
def MemoryManager.search (db : CortexDb) (tenantId projectId userId : String)
    (hits : List CortexHit) (incrementFails : String → Bool) :
    CortexDb × List CortexDict :=
  let results := CortexStore.searchResults hits
  let finalDb := results.foldl
    (fun acc item =>
      if incrementFails item.id then acc
      else CortexStore.incrementHitCount acc tenantId projectId userId item.id)
    db
  (finalDb, results)

/-! ## Concrete fixtures used by witnesses and counterexamples -/

/-- Fixture fragment for the update path: owned by alice. -/
def c1Frag : MemoryFragment :=
  { id := "f1", tenant_id := "t1", project_id := "p1", user_id := "alice",
    content := "old", memory_type := MemoryType.factual }

/-- Fixture index entry for the update path, carrying alice as owner. -/
def c1Entry : ChromaEntry :=
  { document := "old", meta := fragmentToMetadata c1Frag }

/-- Fixture dual-store state for the update path: the fragment is present
in both stores under the t1, p1 partition. -/
def c1St : EngramaState :=
  { meta := [("f1", c1Frag)]
    chroma := [(collectionName "t1" "p1", [("f1", c1Entry)])] }

/-- Fixture fragment for the read paths. -/
def c2Frag : MemoryFragment :=
  { id := "f1", tenant_id := "t1", project_id := "p1", user_id := "u1",
    content := "stored content", memory_type := MemoryType.factual }

/-- Fixture state for the read paths: one resolvable fragment. -/
def c2St : EngramaState := { meta := [("f1", c2Frag)], chroma := [] }

/-- Fixture candidate list for the read paths: one resolvable id and one
dangling id the Record Store does not hold. -/
def c2Items : List BaseItem :=
  [{ id := "f1", content := "from index" }, { id := "ghost", content := "dangling" }]

/-- Fixture fragment for the delete path. -/
def c7Frag : MemoryFragment :=
  { id := "f1", tenant_id := "t1", project_id := "p1", user_id := "u1",
    content := "to be deleted", memory_type := MemoryType.factual }

/-- Fixture state for the delete path: the fragment is in the Record Store
but absent from the Search Index (drifted state). -/
def c7St : EngramaState := { meta := [("f1", c7Frag)], chroma := [] }

/-- Fixture metadata for the cortex delete path. -/
def c7CortexMeta : CortexMeta :=
  { fragment_id := "f1", tenant_id := "t1", project_id := "p1", user_id := "u1",
    memory_type := MemoryType.factual }

/-- Fixture cortex index state holding one fragment. -/
def c7CortexDb : CortexDb :=
  [(cortexCollectionName "t1" "p1" "u1",
    [("f1", { document := "hello", meta := c7CortexMeta })])]

/-- Fixture fragment for the scope-bypass delete: stored under owner alice. -/
def c10Frag : MemoryFragment :=
  { id := "f1", tenant_id := "t1", project_id := "p1", user_id := "alice",
    content := "private", memory_type := MemoryType.preference }

/-- Fixture dual-store state for the scope-bypass delete. -/
def c10St : EngramaState :=
  { meta := [("f1", c10Frag)]
    chroma := [(collectionName "t1" "p1",
      [("f1", { document := "private", meta := fragmentToMetadata c10Frag })])] }

/-- Fixture fragment for the score path. -/
def c8Frag : MemoryFragment :=
  { id := "f1", tenant_id := "t1", project_id := "p1", user_id := "u1",
    content := "stored", memory_type := MemoryType.factual }

/-- Fixture state for the score path. -/
def c8St : EngramaState := { meta := [("f1", c8Frag)], chroma := [] }

/-- Fixture query hit at distance 2. -/
def c8Hit : QueryHit :=
  { id := "f1", document := "d", meta := fragmentToMetadata c8Frag, distance := 2 }

/-- The result row the score-path fixture resolves to. -/
def c8Res : EnrichedItem :=
  { fragment := { c8Frag with content := "d" }, score := some (simScore 2) }

/-- A tenant id of 64 identical letters, longer than the 63-char ceiling. -/
def cexT64 : String := ⟨List.replicate 64 'a'⟩

/-- A tenant id of 65 identical letters, distinct from cexT64. -/
def cexT65 : String := ⟨List.replicate 65 'a'⟩

/-! ## Helper lemmas -/

/-- Creating a missing collection changes no collection's contents: the new
collection is empty, which is also what getCollection reports for an absent
name. -/
theorem getCollection_ensureCollection (db : ChromaDb) (n m : String) :
    getCollection (ensureCollection db n) m = getCollection db m := by
  unfold ensureCollection
  by_cases h : (assocFind db n).isSome
  · simp [h]
  · simp only [h, if_false, Bool.false_eq_true]
    unfold getCollection assocFind
    rw [List.find?_append]
    cases hf : db.find? fun e => e.1 == m with
    | some v => simp [hf]
    | none =>
      by_cases hnm : ((n, ([] : Collection)).1 == m) = true
      · simp [hf, List.find?, hnm]
      · simp [hf, List.find?, hnm]

/-- Rewriting the contents of collection n leaves every other collection
untouched. -/
theorem getCollection_setCollection_ne (db : ChromaDb) (n m : String) (c : Collection)
    (hnm : m ≠ n) : getCollection (setCollection db n c) m = getCollection db m := by
  rw [← getCollection_ensureCollection db n m]
  unfold setCollection getCollection assocFind
  rw [List.find?_map]
  have hpg : ((fun e : String × Collection => e.1 == m) ∘ fun e : String × Collection =>
      if e.1 == n then (e.1, c) else e) = fun e : String × Collection => e.1 == m := by
    funext e
    by_cases he : e.1 = n <;> simp [he]
  rw [hpg]
  cases hf : (ensureCollection db n).find? fun e => e.1 == m with
  | none => simp [hf]
  | some e0 =>
    have hm : e0.1 = m := by
      have hb : (e0.1 == m) = true := by simpa using List.find?_some hf
      exact eq_of_beq hb
    have hn : ¬ e0.1 = n := by rw [hm]; exact hnm
    simp [hf, hn]

/-- A freshly added fragment resolves to itself in the Record Store. -/
theorem lookupFragment_add (rs : RecordStore) (f : MemoryFragment) :
    lookupFragment (addMemoryFragment rs f) f.id = some f := by
  simp [lookupFragment, assocFind, addMemoryFragment, List.find?]

/-- Filtering an id out of a keyed list removes every match for the lookup
predicate. -/
theorem find?_filter_out {α : Type} (l : List (String × α)) (id : String) :
    (l.filter fun e => !(e.1 == id)).find? (fun e => e.1 == id) = none := by
  induction l with
  | nil => rfl
  | cons e rest ih =>
    cases he : (e.1 == id) with
    | true =>
      simp only [List.filter_cons, he, Bool.not_true, Bool.false_eq_true, if_false]
      exact ih
    | false =>
      simp only [List.filter_cons, he, Bool.not_false, if_true]
      rw [List.find?_cons_of_neg _ (by simp [he])]
      exact ih

/-- After filtering a fragment id out, the id no longer resolves. -/
theorem lookupFragment_filter_self (rs : RecordStore) (id : String) :
    lookupFragment (rs.filter fun e => !(e.1 == id)) id = none := by
  unfold lookupFragment assocFind
  rw [find?_filter_out]
  rfl

/-- Filtering out an id that does not resolve leaves the Record Store
unchanged. -/
theorem filter_eq_self_of_lookup_none (rs : RecordStore) (id : String)
    (h : lookupFragment rs id = none) : (rs.filter fun e => !(e.1 == id)) = rs := by
  apply List.filter_eq_self.mpr
  intro a ha
  have hfind : rs.find? (fun e => e.1 == id) = none := by
    unfold lookupFragment assocFind at h
    exact Option.map_eq_none'.mp h
  have hna := List.find?_eq_none.mp hfind a ha
  simp only [Bool.not_eq_true'] at hna ⊢
  simp at hna
  simp [hna]

/-- Deleting a fragment the Record Store does not hold returns not-found
and leaves the whole state untouched, with no index call issued. -/
theorem delete_of_lookup_none (st : EngramaState) (t p u fid : String) (fl : Bool)
    (hm : lookupFragment st.meta fid = none) :
    VectorStore.delete st fl t p u fid = (st, [StoreOp.recordDelete fid], false) := by
  have hs : (deleteMemoryFragment st.meta fid).2 = false := by
    simp [deleteMemoryFragment, hm]
  simp only [VectorStore.delete, hs]
  simp [deleteMemoryFragment, filter_eq_self_of_lookup_none st.meta fid hm]

/-- Updating a fragment row rewrites exactly that row with the supplied
fields applied. -/
theorem lookupFragment_update (rs : RecordStore) (id : String) (u : FragmentUpdates) :
    lookupFragment (updateMemoryFragment rs id u).1 id
      = (lookupFragment rs id).map fun f => applyUpdates f u := by
  unfold updateMemoryFragment
  cases hm : lookupFragment rs id with
  | none => simp [hm]
  | some f =>
    simp only [hm, Option.map_some]
    unfold lookupFragment assocFind at hm ⊢
    rw [List.find?_map]
    have hpg : ((fun e : String × MemoryFragment => e.1 == id) ∘
        fun e : String × MemoryFragment =>
          if e.1 == id then (e.1, applyUpdates f u) else e) =
        fun e : String × MemoryFragment => e.1 == id := by
      funext e
      by_cases he : e.1 = id <;> simp [he]
    rw [hpg]
    obtain ⟨e0, hfind, hsnd⟩ := Option.map_eq_some'.mp hm
    have hkey : e0.1 = id := by
      have hb : (e0.1 == id) = true := by simpa using List.find?_some hfind
      exact eq_of_beq hb
    simp [hfind, hkey]

/-- In a well-formed Record Store every row's id field equals its key, so a
resolved row carries the id it was looked up by. -/
theorem lookupFragment_id {rs : RecordStore} (hwf : ∀ q ∈ rs, q.2.id = q.1)
    {id : String} {m : MemoryFragment} (h : lookupFragment rs id = some m) : m.id = id := by
  unfold lookupFragment assocFind at h
  obtain ⟨e0, hfind, hsnd⟩ := Option.map_eq_some'.mp h
  have hkey : e0.1 = id := by
    have hb : (e0.1 == id) = true := by simpa using List.find?_some hfind
    exact eq_of_beq hb
  have hmem : e0 ∈ rs := List.mem_of_find?_eq_some hfind
  rw [← hsnd, hwf e0 hmem, hkey]

/-- Membership characterization of the batch-resolve step: a result row is
exactly a candidate whose id resolved, carrying the index's content and the
candidate's score when scores were requested. -/
theorem mem_enrichWithMetaStore {rs : RecordStore} {items : List BaseItem} {ws : Bool}
    {e : EnrichedItem} :
    e ∈ enrichWithMetaStore rs items ws ↔
      ∃ it ∈ items, ∃ m, lookupFragment rs it.id = some m ∧
        e = { fragment := { m with content := it.content }
              score := if ws then it.score else none } := by
  unfold enrichWithMetaStore
  rw [List.mem_filterMap]
  constructor
  · rintro ⟨it, hit, hf⟩
    cases hm : lookupFragment rs it.id with
    | none => rw [hm] at hf; exact absurd hf (by simp)
    | some m =>
      rw [hm] at hf
      simp only [Option.some.injEq] at hf
      exact ⟨it, hit, m, hm, hf.symm⟩
  · rintro ⟨it, hit, m, hm, he⟩
    exact ⟨it, hit, by rw [hm, he]⟩

/-! ## Claim theorems -/

/-- C3: for every add(fragment) call, the Record Store write is issued
before the Search Index write; if the index insert fails after the Record
Store commit succeeded, the fragment remains durably recorded (the commit
is not reversed — no collection's contents change) and the failure is
reported to the caller; on success both writes land, in the same order. -/
theorem add_write_ahead_durable (st : EngramaState) (f : MemoryFragment) :
    ((VectorStore.add st true f).2.2 = Except.error ()
      ∧ lookupFragment (VectorStore.add st true f).1.meta f.id = some f
      ∧ (∀ name, getCollection (VectorStore.add st true f).1.chroma name
            = getCollection st.chroma name)
      ∧ (VectorStore.add st true f).2.1
          = [StoreOp.recordAdd f.id,
             StoreOp.indexAdd (collectionName f.tenant_id f.project_id) f.id])
  ∧ ((VectorStore.add st false f).2.2 = Except.ok ()
      ∧ lookupFragment (VectorStore.add st false f).1.meta f.id = some f
      ∧ (VectorStore.add st false f).2.1
          = [StoreOp.recordAdd f.id,
             StoreOp.indexAdd (collectionName f.tenant_id f.project_id) f.id]) := by
  refine ⟨⟨?_, ?_, ?_, ?_⟩, ?_, ?_, ?_⟩ <;>
    simp [VectorStore.add, lookupFragment_add, getCollection_ensureCollection]

/-- C5: a raising counter backend admits the request (fail-open); a
non-positive ceiling or an unconfigured backend disables the governor:
every request is admitted with the backend never contacted and the window
state untouched. -/
theorem rate_governor_fail_open (maxRpm : Int) (entries : List Int) (now : Int) :
    (dispatch maxRpm Backend.failing entries now).admitted = true
  ∧ (maxRpm ≤ 0 → ∀ b, dispatch maxRpm b entries now
        = { entries := entries, admitted := true, contacted := false })
  ∧ dispatch maxRpm Backend.absent entries now
      = { entries := entries, admitted := true, contacted := false } := by
  refine ⟨?_, ?_, ?_⟩
  · by_cases h : maxRpm ≤ 0 <;> simp [dispatch, h]
  · intro h b
    simp [dispatch, h]
  · simp [dispatch]

/-- C5 witness: a failing backend admits at ceiling 5; a negative ceiling
and an absent backend each admit without contacting the backend. -/
theorem rate_governor_fail_open_witness :
    (dispatch 5 Backend.failing [0] 30).admitted = true
  ∧ dispatch (-1) Backend.ok [0] 30
      = { entries := [0], admitted := true, contacted := false }
  ∧ dispatch 0 Backend.absent [] 5
      = { entries := [], admitted := true, contacted := false } :=
  ⟨(rate_governor_fail_open 5 [0] 30).1,
   (rate_governor_fail_open (-1) [0] 30).2.1 (by norm_num) Backend.ok,
   (rate_governor_fail_open 0 [] 5).2.2⟩

/-- C9: the list MemoryManager.search returns equals the vector store's
result list no matter which per-result increment_hit_count calls fail —
each increment is wrapped so a failure is swallowed and never alters,
truncates or aborts the returned results. -/
theorem search_results_immune_to_hit_count_failures
    (db db2 : CortexDb) (t p u : String) (hits : List CortexHit)
    (f g : String → Bool) :
    (MemoryManager.search db t p u hits f).2 = CortexStore.searchResults hits
  ∧ (MemoryManager.search db t p u hits f).2 = (MemoryManager.search db2 t p u hits g).2 :=
  ⟨rfl, rfl⟩

/-- C10: the dual-store delete keys the authoritative removal only by
fragment_id: the Record Store effect and the returned status are identical
for every caller scope triple; a caller whose user_id differs from the
fragment's stored owner still removes the row; and the caller's tenant and
project ids determine only which index partition is touched — every other
partition is unchanged. -/
theorem delete_ignores_scope_ownership (st : EngramaState) (t p u fid : String) :
    (∀ t2 p2 u2 : String, ∀ fl : Bool,
        (VectorStore.delete st fl t p u fid).1.meta
            = (VectorStore.delete st fl t2 p2 u2 fid).1.meta
      ∧ (VectorStore.delete st fl t p u fid).2.2
            = (VectorStore.delete st fl t2 p2 u2 fid).2.2)
  ∧ (∀ f, lookupFragment st.meta fid = some f → f.user_id ≠ u →
      lookupFragment (VectorStore.delete st false t p u fid).1.meta fid = none
      ∧ (VectorStore.delete st false t p u fid).2.2 = true)
  ∧ (∀ nm, nm ≠ collectionName t p → ∀ fl,
      getCollection (VectorStore.delete st fl t p u fid).1.chroma nm
        = getCollection st.chroma nm) := by
  refine ⟨?_, ?_, ?_⟩
  · intro t2 p2 u2 fl
    by_cases hs : (deleteMemoryFragment st.meta fid).2 = false
    · simp [VectorStore.delete, hs]
    · cases fl <;> simp [VectorStore.delete, hs]
  · intro f hf _
    have hs : (deleteMemoryFragment st.meta fid).2 = true := by
      simp [deleteMemoryFragment, hf]
    simp [VectorStore.delete, hs, deleteMemoryFragment, hf, lookupFragment_filter_self]
  · intro nm hnm fl
    by_cases hs : (deleteMemoryFragment st.meta fid).2 = false
    · simp [VectorStore.delete, hs]
    · cases fl
      · simp [VectorStore.delete, hs]
        rw [getCollection_setCollection_ne _ _ _ _ hnm, getCollection_ensureCollection]
      · simp [VectorStore.delete, hs]
        rw [getCollection_ensureCollection]

/-- C10 witness: the fragment stored under owner alice is removed from the
Record Store by a delete whose caller user_id is mallory, and the call
reports success. -/
theorem delete_ignores_scope_ownership_witness :
    lookupFragment (VectorStore.delete c10St false "t1" "p1" "mallory" "f1").1.meta "f1" = none
  ∧ (VectorStore.delete c10St false "t1" "p1" "mallory" "f1").2.2 = true :=
  (delete_ignores_scope_ownership c10St "t1" "p1" "mallory" "f1").2.1 c10Frag
    (by decide) (by decide)

/-- C7 counterexample: the claim requires a second delete of the same id
to return not-found, but the cortex store's delete (one of the claim's two
cited implementations) never consults a Record Store: deleting f1 from its
collection and then deleting it again reports success both times, and even
a delete of an id that never existed reports success. -/
theorem delete_idempotent_cex :
    (CortexStore.delete c7CortexDb false "t1" "p1" "u1" "f1").2 = true
  ∧ (CortexStore.delete
      (CortexStore.delete c7CortexDb false "t1" "p1" "u1" "f1").1
      false "t1" "p1" "u1" "f1").2 = true
  ∧ (CortexStore.delete ([] : CortexDb) false "t1" "p1" "u1" "never-existed").2 = true := by
  decide

/-- C7 amended: in the engrama store the claim holds — the Record Store
deletion runs first, a missing row returns not-found with no index call and
no state change, index-side absence of the id still yields success, and a
second delete of the same id returns not-found with no side effects.  The
cortex store's delete instead touches only the Search Index and returns
success whenever the index call does not raise, regardless of whether the
id exists. -/
theorem delete_dual_store_amended (st : EngramaState) (t p u fid : String) :
    (lookupFragment st.meta fid = none → ∀ fl,
      VectorStore.delete st fl t p u fid = (st, [StoreOp.recordDelete fid], false))
  ∧ ((lookupFragment st.meta fid).isSome →
      assocFind (getCollection (ensureCollection st.chroma (collectionName t p))
          (collectionName t p)) fid = none →
      (VectorStore.delete st false t p u fid).2.2 = true)
  ∧ ((VectorStore.delete st false t p u fid).2.2 = true → ∀ fl,
      VectorStore.delete (VectorStore.delete st false t p u fid).1 fl t p u fid
        = ((VectorStore.delete st false t p u fid).1, [StoreOp.recordDelete fid], false))
  ∧ (∀ (db : CortexDb) (t2 p2 u2 fid2 : String),
      (CortexStore.delete db false t2 p2 u2 fid2).2 = true) := by
  refine ⟨?_, ?_, ?_, ?_⟩
  · intro hm fl
    exact delete_of_lookup_none st t p u fid fl hm
  · intro hm _
    have hs : (deleteMemoryFragment st.meta fid).2 = true := by
      simp [deleteMemoryFragment, Option.isSome_iff_exists] at hm ⊢
      obtain ⟨f, hf⟩ := hm
      exact ⟨f, hf⟩
    simp [VectorStore.delete, hs]
  · intro hres fl
    have hs : (deleteMemoryFragment st.meta fid).2 = true := by
      by_contra hcon
      have hs' : (deleteMemoryFragment st.meta fid).2 = false := by
        cases hv : (deleteMemoryFragment st.meta fid).2
        · rfl
        · exact absurd hv hcon
      simp [VectorStore.delete, hs'] at hres
    have hmeta : (VectorStore.delete st false t p u fid).1.meta
        = st.meta.filter fun e => !(e.1 == fid) := by
      simp only [VectorStore.delete, hs]
      simp [deleteMemoryFragment]
    have hnone : lookupFragment (VectorStore.delete st false t p u fid).1.meta fid = none := by
      rw [hmeta]
      exact lookupFragment_filter_self st.meta fid
    exact delete_of_lookup_none _ t p u fid fl hnone
  · intro db t2 p2 u2 fid2
    simp [CortexStore.delete]

/-- C7 witness: with the fragment present in the Record Store but already
absent from the index, delete still reports success; a delete of a missing
id returns not-found without touching anything; and after a successful
delete the second delete returns not-found with no side effects. -/
theorem delete_dual_store_amended_witness :
    (VectorStore.delete c7St false "t1" "p1" "u1" "f1").2.2 = true
  ∧ VectorStore.delete c7St false "t1" "p1" "u1" "missing"
      = (c7St, [StoreOp.recordDelete "missing"], false)
  ∧ VectorStore.delete (VectorStore.delete c7St false "t1" "p1" "u1" "f1").1
      false "t1" "p1" "u1" "f1"
      = ((VectorStore.delete c7St false "t1" "p1" "u1" "f1").1,
         [StoreOp.recordDelete "f1"], false) :=
  ⟨(delete_dual_store_amended c7St "t1" "p1" "u1" "f1").2.1 (by decide) (by decide),
   (delete_dual_store_amended c7St "t1" "p1" "u1" "missing").1 (by decide) false,
   (delete_dual_store_amended c7St "t1" "p1" "u1" "f1").2.2.1 (by decide) false⟩

/-- C1 counterexample: the claim requires the scope check to precede any
change, with the Record Store left unchanged on a mismatch.  With fragment
f1 owned by alice in both stores, an update called with user_id mallory
signals not-found — yet the Record Store row now carries the new content:
the scope check ran only after the authoritative write. -/
theorem update_scope_check_not_atomic_cex :
    (VectorStore.update c1St "t1" "p1" "mallory" "f1" (some "new") none none none).2.2 = none
  ∧ (VectorStore.update c1St "t1" "p1" "mallory" "f1" (some "new") none none none).1.meta
      ≠ c1St.meta
  ∧ lookupFragment
      (VectorStore.update c1St "t1" "p1" "mallory" "f1" (some "new") none none none).1.meta
      "f1" = some { c1Frag with content := "new" } := by
  decide

/-- C1 amended: update validates the caller-supplied user_id against the
Search Index projection only after the Record Store update has been
applied.  A missing Record Store row returns not-found with nothing
changed and no index call.  When the row exists but the index lacks the id
or its projection's user_id differs from the caller's, the operation
returns not-found — the trace shows the record write preceding the index
read — while the Record Store retains the applied field changes and the
index documents stay untouched. -/
theorem update_scope_validation_amended (st : EngramaState)
    (t p u fid : String) (c : Option String) (tg : Option (List String))
    (imp : Option Rat) (md : Option (List (String × String))) :
    (lookupFragment st.meta fid = none →
      VectorStore.update st t p u fid c tg imp md
        = (st, [StoreOp.recordUpdate fid], none))
  ∧ (∀ f, lookupFragment st.meta fid = some f →
      assocFind (getCollection (ensureCollection st.chroma (collectionName t p))
          (collectionName t p)) fid = none →
      VectorStore.update st t p u fid c tg imp md
        = ({ meta := (updateMemoryFragment st.meta fid
                { content := c, tags := tg, importance := imp, metadata := md }).1,
             chroma := ensureCollection st.chroma (collectionName t p) },
           [StoreOp.recordUpdate fid, StoreOp.indexGet (collectionName t p) fid], none))
  ∧ (∀ f entry, lookupFragment st.meta fid = some f →
      assocFind (getCollection (ensureCollection st.chroma (collectionName t p))
          (collectionName t p)) fid = some entry →
      entry.meta.user_id ≠ u →
      VectorStore.update st t p u fid c tg imp md
        = ({ meta := (updateMemoryFragment st.meta fid
                { content := c, tags := tg, importance := imp, metadata := md }).1,
             chroma := ensureCollection st.chroma (collectionName t p) },
           [StoreOp.recordUpdate fid, StoreOp.indexGet (collectionName t p) fid], none)
      ∧ lookupFragment (VectorStore.update st t p u fid c tg imp md).1.meta fid
          = some (applyUpdates f
              { content := c, tags := tg, importance := imp, metadata := md })) := by
  refine ⟨?_, ?_, ?_⟩
  · intro hm
    have hs : (updateMemoryFragment st.meta fid
        { content := c, tags := tg, importance := imp, metadata := md }).2 = false := by
      simp [updateMemoryFragment, hm]
    have hrs : (updateMemoryFragment st.meta fid
        { content := c, tags := tg, importance := imp, metadata := md }).1 = st.meta := by
      simp [updateMemoryFragment, hm]
    simp only [VectorStore.update, hs]
    simp [hrs]
  · intro f hm hidx
    have hs : (updateMemoryFragment st.meta fid
        { content := c, tags := tg, importance := imp, metadata := md }).2 = true := by
      simp [updateMemoryFragment, hm]
    simp only [VectorStore.update, hs]
    simp [hidx]
  · intro f entry hm hidx huser
    have hs : (updateMemoryFragment st.meta fid
        { content := c, tags := tg, importance := imp, metadata := md }).2 = true := by
      simp [updateMemoryFragment, hm]
    have heq : VectorStore.update st t p u fid c tg imp md
        = ({ meta := (updateMemoryFragment st.meta fid
                { content := c, tags := tg, importance := imp, metadata := md }).1,
             chroma := ensureCollection st.chroma (collectionName t p) },
           [StoreOp.recordUpdate fid, StoreOp.indexGet (collectionName t p) fid], none) := by
      simp only [VectorStore.update, hs]
      simp [hidx, huser]
    refine ⟨heq, ?_⟩
    have h2 : (VectorStore.update st t p u fid c tg imp md).1.meta
        = (updateMemoryFragment st.meta fid
            { content := c, tags := tg, importance := imp, metadata := md }).1 := by
      rw [heq]
    rw [h2, lookupFragment_update, hm]
    rfl

/-- C1 witness: the alice-owned fixture updated under caller mallory
returns not-found with the record write already applied, and the Record
Store row then carries the new content. -/
theorem update_scope_validation_amended_witness :
    VectorStore.update c1St "t1" "p1" "mallory" "f1" (some "new") none none none
      = ({ meta := (updateMemoryFragment c1St.meta "f1"
              { content := some "new", tags := none, importance := none, metadata := none }).1,
           chroma := ensureCollection c1St.chroma (collectionName "t1" "p1") },
         [StoreOp.recordUpdate "f1", StoreOp.indexGet (collectionName "t1" "p1") "f1"], none)
  ∧ lookupFragment
      (VectorStore.update c1St "t1" "p1" "mallory" "f1" (some "new") none none none).1.meta
      "f1"
      = some (applyUpdates c1Frag
          { content := some "new", tags := none, importance := none, metadata := none }) :=
  (update_scope_validation_amended c1St "t1" "p1" "mallory" "f1"
      (some "new") none none none).2.2 c1Frag c1Entry (by decide) (by decide) (by decide)

/-- Identity bookkeeping for the batch-resolve step: the ids of the result
rows are exactly the candidate ids that resolved, in candidate order. -/
theorem enrich_map_id (rs : RecordStore) (hwf : ∀ q ∈ rs, q.2.id = q.1)
    (items : List BaseItem) (ws : Bool) :
    (enrichWithMetaStore rs items ws).map (fun e => e.fragment.id)
      = (items.filter fun it => (lookupFragment rs it.id).isSome).map BaseItem.id := by
  induction items with
  | nil => rfl
  | cons it rest ih =>
    cases hm : lookupFragment rs it.id with
    | none =>
      simp only [enrichWithMetaStore, List.filterMap_cons, hm] at ih ⊢
      simp [List.filter_cons, hm, ih]
    | some m =>
      have hid : m.id = it.id := lookupFragment_id hwf hm
      simp only [enrichWithMetaStore, List.filterMap_cons, hm] at ih ⊢
      simp [List.filter_cons, hm, ih, hid]

/-- Every row the batch-resolve step emits has an id that resolves in the
Record Store. -/
theorem mem_enrich_resolves {rs : RecordStore} (hwf : ∀ q ∈ rs, q.2.id = q.1)
    {items : List BaseItem} {ws : Bool} {e : EnrichedItem}
    (he : e ∈ enrichWithMetaStore rs items ws) :
    (lookupFragment rs e.fragment.id).isSome = true := by
  obtain ⟨it, hit, m, hm, rfl⟩ := mem_enrichWithMetaStore.mp he
  have hid : m.id = it.id := lookupFragment_id hwf hm
  simp only []
  rw [show ({ m with content := it.content } : MemoryFragment).id = m.id from rfl, hid, hm]
  rfl

/-- C2: on every search, list, or session-history read, a candidate id the
Search Index returned that does not resolve in the Record Store batch
lookup is silently excluded — the surviving ids are exactly the resolvable
candidates in order, every returned row resolves, and no error is possible
(the read paths are total functions into result lists). -/
theorem read_paths_drop_unresolved_ids (st : EngramaState)
    (hwf : ∀ q ∈ st.meta, q.2.id = q.1) :
    (∀ (items : List BaseItem) (ws : Bool),
        (enrichWithMetaStore st.meta items ws).map (fun e => e.fragment.id)
          = (items.filter fun it => (lookupFragment st.meta it.id).isSome).map BaseItem.id)
  ∧ (∀ hits : List QueryHit, ∀ e ∈ VectorStore.search st hits,
      (lookupFragment st.meta e.fragment.id).isSome = true)
  ∧ (∀ rows : List GetRow, ∀ e ∈ VectorStore.getBySession st rows,
      (lookupFragment st.meta e.fragment.id).isSome = true)
  ∧ (∀ rows : List GetRow, ∀ e ∈ VectorStore.listMemories st rows,
      (lookupFragment st.meta e.fragment.id).isSome = true) := by
  refine ⟨enrich_map_id st.meta hwf, ?_, ?_, ?_⟩
  · intro hits e he
    exact mem_enrich_resolves hwf he
  · intro rows e he
    exact mem_enrich_resolves hwf (List.mem_mergeSort.mp he)
  · intro rows e he
    exact mem_enrich_resolves hwf (List.mem_mergeSort.mp he)

/-- C2 witness: of the two candidates f1 and ghost only f1 resolves in the
fixture Record Store, so the read returns exactly the f1 row and the
dangling ghost id is silently dropped. -/
theorem read_paths_drop_unresolved_ids_witness :
    (enrichWithMetaStore c2St.meta c2Items true).map (fun e => e.fragment.id) = ["f1"] := by
  have h := (read_paths_drop_unresolved_ids c2St (by decide)).1 c2Items true
  rw [h]
  decide

/-- C8: every search result's attached score is 1 / (1 + distance) for the
distance of the hit it came from; for every non-negative distance the
score is in the half-open interval (0, 1], it is strictly decreasing in
the distance, and it is exactly 1 at distance zero. -/
theorem similarity_score_properties :
    (∀ (st : EngramaState) (hits : List QueryHit), ∀ e ∈ VectorStore.search st hits,
        ∃ h ∈ hits, e.score = some (simScore h.distance))
  ∧ (∀ d : Rat, 0 ≤ d → 0 < simScore d ∧ simScore d ≤ 1)
  ∧ (∀ d₁ d₂ : Rat, 0 ≤ d₁ → d₁ < d₂ → simScore d₂ < simScore d₁)
  ∧ simScore 0 = 1 := by
  refine ⟨?_, ?_, ?_, ?_⟩
  · intro st hits e he
    obtain ⟨it, hit, m, hm, rfl⟩ := mem_enrichWithMetaStore.mp he
    obtain ⟨h, hh, rfl⟩ := List.mem_map.mp hit
    exact ⟨h, hh, rfl⟩
  · intro d hd
    have hpos : (0 : ℚ) < 1 + d := by linarith
    constructor
    · exact div_pos one_pos hpos
    · rw [simScore, div_le_one hpos]
      linarith
  · intro d₁ d₂ hd₁ hlt
    have hpos : (0 : ℚ) < 1 + d₁ := by linarith
    exact one_div_lt_one_div_of_lt hpos (by linarith)
  · norm_num [simScore]

/-- C8 witness: at distance 2 the fixture search attaches score 1/3, which
is positive and at most 1; the score at distance 1 is below the score at
distance 0. -/
theorem similarity_score_properties_witness :
    (0 < simScore 2 ∧ simScore 2 ≤ 1)
  ∧ simScore 1 < simScore 0
  ∧ (∃ h ∈ [c8Hit], c8Res.score = some (simScore h.distance)) :=
  ⟨similarity_score_properties.2.1 2 (by norm_num),
   similarity_score_properties.2.2.1 0 1 (by norm_num) (by norm_num),
   similarity_score_properties.1 c8St [c8Hit] c8Res
     (by rw [show VectorStore.search c8St [c8Hit] = [c8Res] from rfl]
         exact List.mem_singleton.mpr rfl)⟩

/-- Invariant of sequential in-window requests: starting from a window
state holding exactly the earlier request times, each request is appended
to the window (nothing is trimmed, nothing collides) and the k-th request
of the run is admitted exactly when the window then holds no more than
maxRpm entries. -/
theorem runRequests_ok_spec (maxRpm : Int) (hpos : 0 < maxRpm) :
    ∀ (times p : List Int),
      (∀ a ∈ p, ∀ b ∈ times, a < b) →
      times.Pairwise (· < ·) →
      (∀ a ∈ p, ∀ b ∈ times, b - a < windowSeconds) →
      (∀ a ∈ times, ∀ b ∈ times, b - a < windowSeconds) →
      runRequests maxRpm Backend.ok p times
        = (p ++ times,
           (List.range times.length).map fun k =>
             !decide (((p.length + k + 1 : Nat) : Int) > maxRpm)) := by
  intro times
  induction times with
  | nil =>
    intro p _ _ _ _
    simp [runRequests]
  | cons now rest ih =>
    intro p horder hpair hcross hwin
    have hnp : now ∉ p := by
      intro hmem
      exact absurd (horder now hmem now (List.mem_cons_self now rest)) (lt_irrefl now)
    have htrim : trimWindow p (now - windowSeconds) = p := by
      apply List.filter_eq_self.mpr
      intro a ha
      have h1 : now - a < windowSeconds := hcross a ha now (List.mem_cons_self now rest)
      simp only [decide_eq_true_eq]
      omega
    have hcond : ¬ (maxRpm ≤ 0 ∨ Backend.ok = Backend.absent) := by
      push_neg
      exact ⟨by omega, by simp⟩
    have hdisp : dispatch maxRpm Backend.ok p now
        = { entries := p ++ [now],
            admitted := !decide (((p.length + 1 : Nat) : Int) > maxRpm),
            contacted := true } := by
      rw [dispatch, if_neg hcond, if_neg (by simp : ¬ (Backend.ok = Backend.failing))]
      rw [htrim]
      simp [zaddEntry, hnp]
    have ho2 : ∀ a ∈ p ++ [now], ∀ b ∈ rest, a < b := by
      intro a ha b hb
      rcases List.mem_append.mp ha with h | h
      · exact horder a h b (List.mem_cons_of_mem now hb)
      · have ha2 : a = now := by simpa using h
        subst ha2
        exact (List.pairwise_cons.mp hpair).1 b hb
    have hp2 : rest.Pairwise (· < ·) := (List.pairwise_cons.mp hpair).2
    have hc2 : ∀ a ∈ p ++ [now], ∀ b ∈ rest, b - a < windowSeconds := by
      intro a ha b hb
      rcases List.mem_append.mp ha with h | h
      · exact hcross a h b (List.mem_cons_of_mem now hb)
      · have ha2 : a = now := by simpa using h
        subst ha2
        exact hwin a (List.mem_cons_self a rest) b (List.mem_cons_of_mem a hb)
    have hw2 : ∀ a ∈ rest, ∀ b ∈ rest, b - a < windowSeconds := fun a ha b hb =>
      hwin a (List.mem_cons_of_mem now ha) b (List.mem_cons_of_mem now hb)
    have ih2 := ih (p ++ [now]) ho2 hp2 hc2 hw2
    rw [runRequests, hdisp]
    simp only []
    rw [ih2]
    refine Prod.ext ?_ ?_
    · simp
    · simp only [List.length_cons, List.range_succ_eq_map, List.map_cons, List.map_map]
      refine congrArg₂ List.cons rfl ?_
      refine List.map_congr_left fun k _ => ?_
      simp only [Function.comp, List.length_append, List.length_cons, List.length_nil]
      refine congrArg Bool.not (decide_eq_decide.mpr ?_)
      constructor <;> intro h <;> (push_cast at h ⊢; omega)

/-- C4: with a positive ceiling and a reachable backend the governor
atomically trims this client's entries at now minus sixty seconds, records
now, counts, and denies exactly when the post-insert count exceeds the
ceiling; consequently a strictly increasing run of requests inside one
60-second window is admitted precisely while the running count stays at or
below the ceiling — with ceiling 10 and 12 requests, the first 10 admit
and the last 2 deny. -/
theorem rate_governor_window_count (maxRpm : Int) (hpos : 0 < maxRpm) :
    (∀ (entries : List Int) (now : Int),
        dispatch maxRpm Backend.ok entries now
          = { entries := zaddEntry (trimWindow entries (now - windowSeconds)) now,
              admitted := !decide
                (((zaddEntry (trimWindow entries (now - windowSeconds)) now).length : Int)
                  > maxRpm),
              contacted := true }
      ∧ ((dispatch maxRpm Backend.ok entries now).admitted = false ↔
          ((zaddEntry (trimWindow entries (now - windowSeconds)) now).length : Int) > maxRpm))
  ∧ (∀ times : List Int, times.Pairwise (· < ·) →
      (∀ a ∈ times, ∀ b ∈ times, b - a < windowSeconds) →
      runRequests maxRpm Backend.ok [] times
        = (times, (List.range times.length).map fun k =>
            !decide (((k + 1 : Nat) : Int) > maxRpm))) := by
  have hcond : ¬ (maxRpm ≤ 0 ∨ Backend.ok = Backend.absent) := by
    push_neg
    exact ⟨by omega, by simp⟩
  constructor
  · intro entries now
    have heq : dispatch maxRpm Backend.ok entries now
        = { entries := zaddEntry (trimWindow entries (now - windowSeconds)) now,
            admitted := !decide
              (((zaddEntry (trimWindow entries (now - windowSeconds)) now).length : Int)
                > maxRpm),
            contacted := true } := by
      rw [dispatch, if_neg hcond, if_neg (by simp : ¬ (Backend.ok = Backend.failing))]
    refine ⟨heq, ?_⟩
    rw [heq]
    simp
  · intro times hpair hwin
    have h := runRequests_ok_spec maxRpm hpos times []
      (fun a ha => absurd ha (List.not_mem_nil a))
      hpair
      (fun a ha => absurd ha (List.not_mem_nil a))
      hwin
    rw [h]
    refine Prod.ext (by simp) ?_
    simp only [List.length_nil]
    refine List.map_congr_left fun k _ => ?_
    refine congrArg Bool.not (decide_eq_decide.mpr ?_)
    constructor <;> intro hx <;> (push_cast at hx ⊢; omega)

/-- C4 witness: twelve strictly increasing request times inside one window
at ceiling 10 — the first ten admit and the last two deny. -/
theorem rate_governor_window_count_witness :
    (runRequests 10 Backend.ok [] [0, 1, 2, 3, 4, 5, 6, 7, 8, 9, 10, 11]).2
      = [true, true, true, true, true, true, true, true, true, true, false, false] := by
  have h := (rate_governor_window_count 10 (by norm_num)).2
    [0, 1, 2, 3, 4, 5, 6, 7, 8, 9, 10, 11] (by decide) (by decide)
  rw [h]
  decide

/-- The compression fold keeps the eight-word state width. -/
theorem compress_foldl_length (l : List (Nat × Nat)) (h : List Nat) (hh : h.length = 8) :
    (l.foldl compressStep h).length = 8 := by
  induction l generalizing h with
  | nil => simpa using hh
  | cons a rest ih =>
    rw [List.foldl_cons]
    exact ih (compressStep h a) (by simp [compressStep])

/-- Processing a block keeps the eight-word state width. -/
theorem processBlock_length (h block : List Nat) (hh : h.length = 8) :
    (processBlock h block).length = 8 := by
  unfold processBlock
  simp [List.length_zip, hh, compress_foldl_length _ _ hh]

/-- The block fold keeps the eight-word state width. -/
theorem foldl_processBlock_length (bs : List (List Nat)) (h : List Nat) (hh : h.length = 8) :
    (bs.foldl processBlock h).length = 8 := by
  induction bs generalizing h with
  | nil => simpa using hh
  | cons b rest ih =>
    rw [List.foldl_cons]
    exact ih _ (processBlock_length _ _ hh)

/-- A SHA-256 state is eight words. -/
theorem sha256Words_length (msg : List Nat) : (sha256Words msg).length = 8 :=
  foldl_processBlock_length _ _ (by rfl)

/-- Each word prints as eight hex characters. -/
theorem wordHex_length (w : Nat) : (wordHex w).length = 8 := by
  simp [wordHex]

/-- The concatenated hex of a word list has eight characters per word. -/
theorem flatten_wordHex_length (ws : List Nat) :
    ((ws.map wordHex).flatten).length = 8 * ws.length := by
  induction ws with
  | nil => simp
  | cons w rest ih =>
    simp only [List.map_cons, List.flatten_cons, List.length_append, wordHex_length, ih,
      List.length_cons]
    omega

/-- The hex digest of any string has exactly 64 characters. -/
theorem sha256Hex_length (s : String) : (sha256Hex s).length = 64 := by
  show ((sha256Words (strBytes s)).map wordHex).flatten.length = 64
  rw [flatten_wordHex_length, sha256Words_length]

/-- Python slicing takes at most n code points. -/
theorem strTake_length (s : String) (n : Nat) : (strTake s n).length = min n s.length := by
  show (s.data.take n).length = min n s.data.length
  simp [List.length_take]

/-- Hex digits are inside the allowed partition-name alphabet. -/
theorem isAllowedChar_hexChar (n : Nat) (hn : n < 16) : isAllowedChar (hexChar n) = true := by
  have hall : ∀ m < 16, isAllowedChar (hexChar m) = true := by decide
  exact hall n hn

/-- The sanitizer preserves length. -/
theorem sanitize_length (s : String) : (sanitize s).length = s.length := by
  show (s.data.map _).length = s.data.length
  simp

/-- Every character the sanitizer emits is in the allowed alphabet. -/
theorem mem_sanitize_allowed (s : String) :
    ∀ c ∈ (sanitize s).data, isAllowedChar c = true := by
  intro c hc
  obtain ⟨d, _, rfl⟩ := List.mem_map.mp hc
  cases h : isAllowedChar d with
  | true => simp [h]
  | false =>
    rw [if_neg (by simp [h])]
    decide

/-- Every character of the sanitized-and-joined name is in the allowed
alphabet. -/
theorem mem_joinedName_allowed (t p : String) :
    ∀ c ∈ (sanitize t ++ "__" ++ sanitize p).data, isAllowedChar c = true := by
  intro c hc
  rw [show (sanitize t ++ "__" ++ sanitize p).data
      = ((sanitize t).data ++ "__".data) ++ (sanitize p).data from rfl] at hc
  rcases List.mem_append.mp hc with h | h
  · rcases List.mem_append.mp h with h2 | h2
    · exact mem_sanitize_allowed t c h2
    · have hu : c = '_' := by simpa using h2
      subst hu
      decide
  · exact mem_sanitize_allowed p c h

/-- Every character of the full digest is in the allowed alphabet. -/
theorem mem_sha256Hex_allowed (s : String) :
    ∀ c ∈ (sha256Hex s).data, isAllowedChar c = true := by
  intro c hc
  have hc2 : c ∈ ((sha256Words (strBytes s)).map wordHex).flatten := hc
  obtain ⟨l, hl, hcl⟩ := List.mem_flatten.mp hc2
  obtain ⟨w, _, rfl⟩ := List.mem_map.mp hl
  simp only [wordHex] at hcl
  obtain ⟨i, _, rfl⟩ := List.mem_map.mp hcl
  exact isAllowedChar_hexChar _ (Nat.mod_lt _ (by norm_num))

/-- C6 counterexample: the claim describes partition naming as a function
of (tenant_id, project_id) that replaces every character outside
A-Za-z0-9_ and hash-suffixes on overflow, but the cortex namer (one of the
claim's two cited implementations) keeps a dot unsanitized, depends on the
user id as a third input, and truncates two distinct over-long ids to the
same 63-char name with no hash suffix. -/
theorem partition_naming_cortex_cex :
    cortexCollectionName "a.b" "p1" "u1" = "a.b__p1__u1"
  ∧ ('.' ∈ (cortexCollectionName "a.b" "p1" "u1").data)
  ∧ cortexCollectionName cexT64 "p" "u" = cortexCollectionName cexT65 "p" "u"
  ∧ cexT64 ≠ cexT65
  ∧ cortexCollectionName "t" "p" "u1" ≠ cortexCollectionName "t" "p" "u2" := by
  decide

/-- C6 amended: the engrama namer behaves exactly as the claim says — it
sanitizes each id to A-Za-z0-9_ preserving length, joins with a double
underscore, emits only allowed characters, never exceeds 63 chars, and on
overflow truncates to 54 chars and appends an underscore plus the first 8
hex chars of the SHA-256 of the full name (total exactly 63).  The cortex
namer instead keys on (tenant, project, user), replaces only hyphen and
at-sign, and truncates without any hash suffix. -/
theorem partition_naming_amended :
    (∀ s : String, (sanitize s).length = s.length
        ∧ ∀ c ∈ (sanitize s).data, isAllowedChar c = true)
  ∧ (∀ t p : String, (collectionName t p).length ≤ 63)
  ∧ (∀ t p : String, ∀ c ∈ (collectionName t p).data, isAllowedChar c = true)
  ∧ (∀ t p : String, (sanitize t ++ "__" ++ sanitize p).length ≤ 63 →
      collectionName t p = sanitize t ++ "__" ++ sanitize p)
  ∧ (∀ t p : String, (sanitize t ++ "__" ++ sanitize p).length > 63 →
      collectionName t p
        = strTake (sanitize t ++ "__" ++ sanitize p) 54 ++ "_"
            ++ strTake (sha256Hex (sanitize t ++ "__" ++ sanitize p)) 8
      ∧ (collectionName t p).length = 63) := by
  have hlen63 : ∀ t p : String, (sanitize t ++ "__" ++ sanitize p).length > 63 →
      (strTake (sanitize t ++ "__" ++ sanitize p) 54 ++ "_"
        ++ strTake (sha256Hex (sanitize t ++ "__" ++ sanitize p)) 8).length = 63 := by
    intro t p h
    rw [String.length_append, String.length_append, strTake_length, strTake_length,
      sha256Hex_length]
    have h54 : min 54 (sanitize t ++ "__" ++ sanitize p).length = 54 :=
      Nat.min_eq_left (by omega)
    rw [h54]
    rfl
  refine ⟨fun s => ⟨sanitize_length s, mem_sanitize_allowed s⟩, ?_, ?_, ?_, ?_⟩
  · intro t p
    by_cases h : (sanitize t ++ "__" ++ sanitize p).length > 63
    · rw [show collectionName t p
          = strTake (sanitize t ++ "__" ++ sanitize p) 54 ++ "_"
              ++ strTake (sha256Hex (sanitize t ++ "__" ++ sanitize p)) 8 from by
            simp only [collectionName]
            rw [if_pos h]]
      rw [hlen63 t p h]
    · rw [show collectionName t p = sanitize t ++ "__" ++ sanitize p from by
        simp only [collectionName]
        rw [if_neg h]]
      omega
  · intro t p c hc
    by_cases h : (sanitize t ++ "__" ++ sanitize p).length > 63
    · rw [show collectionName t p
          = strTake (sanitize t ++ "__" ++ sanitize p) 54 ++ "_"
              ++ strTake (sha256Hex (sanitize t ++ "__" ++ sanitize p)) 8 from by
            simp only [collectionName]
            rw [if_pos h]] at hc
      rw [show (strTake (sanitize t ++ "__" ++ sanitize p) 54 ++ "_"
          ++ strTake (sha256Hex (sanitize t ++ "__" ++ sanitize p)) 8).data
          = ((sanitize t ++ "__" ++ sanitize p).data.take 54 ++ "_".data)
              ++ (sha256Hex (sanitize t ++ "__" ++ sanitize p)).data.take 8 from rfl] at hc
      rcases List.mem_append.mp hc with h2 | h2
      · rcases List.mem_append.mp h2 with h3 | h3
        · exact mem_joinedName_allowed t p c (List.take_subset _ _ h3)
        · have hu : c = '_' := by simpa using h3
          subst hu
          decide
      · exact mem_sha256Hex_allowed _ c (List.take_subset _ _ h2)
    · rw [show collectionName t p = sanitize t ++ "__" ++ sanitize p from by
        simp only [collectionName]
        rw [if_neg h]] at hc
      exact mem_joinedName_allowed t p c hc
  · intro t p h
    simp only [collectionName]
    rw [if_neg (by omega)]
  · intro t p h
    have hform : collectionName t p
        = strTake (sanitize t ++ "__" ++ sanitize p) 54 ++ "_"
            ++ strTake (sha256Hex (sanitize t ++ "__" ++ sanitize p)) 8 := by
      simp only [collectionName]
      rw [if_pos h]
    refine ⟨hform, ?_⟩
    rw [hform]
    exact hlen63 t p h

/-- C6 witness: a short pair stays within the ceiling and keeps the plain
joined form; the over-long fixture takes the truncate-plus-hash-suffix
form at exactly 63 chars; the underscore is an allowed character of a
concrete name. -/
theorem partition_naming_amended_witness :
    (collectionName "tenant-1" "proj.9").length ≤ 63
  ∧ collectionName "t 1" "p" = sanitize "t 1" ++ "__" ++ sanitize "p"
  ∧ isAllowedChar '_' = true
  ∧ (collectionName cexT64 "p"
      = strTake (sanitize cexT64 ++ "__" ++ sanitize "p") 54 ++ "_"
          ++ strTake (sha256Hex (sanitize cexT64 ++ "__" ++ sanitize "p")) 8
    ∧ (collectionName cexT64 "p").length = 63) :=
  ⟨partition_naming_amended.2.1 "tenant-1" "proj.9",
   partition_naming_amended.2.2.2.1 "t 1" "p" (by decide),
   partition_naming_amended.2.2.1 "a" "b" '_' (by decide),
   partition_naming_amended.2.2.2.2 cexT64 "p" (by decide)⟩

end EngramaSpec
